import Mathlib

/-!
Shallow embedding of the life-rs automaton engine (src/main.rs).

The program keeps two boards of RGBA cells, `curr` and `next`.  Each
update (when at least `MILLIS_PER_UPDATE` milliseconds have elapsed)
computes the Game-of-Life successor of every cell of `curr` into `next`
with toroidal neighbor indexing, swaps the two boards, stamps the update
time and sets the redraw flag.  Each draw, when the redraw flag is set,
reinterprets `curr` as a packed row-major byte buffer, clears the flag
and presents the buffer.

Machine integers (`u8`, `usize`) are modelled as `Nat`; the `Instant`
timestamps and `Duration` as milliseconds in `Nat` (with truncated
subtraction, matching the monotone-clock assumption); the thread RNG of
`GameState.new` as an explicit stream of coin flips.
-/

namespace Life

def SCALE : Nat := 2

def GRID_WIDTH : Nat := 1920 / SCALE

def GRID_HEIGHT : Nat := 1080 / SCALE

def GRID_CELLS : Nat := GRID_WIDTH * GRID_HEIGHT

def COLOR_BYTES : Nat := 4

def GRID_BYTES : Nat := GRID_CELLS * COLOR_BYTES

def UPDATES_PER_SECOND : Nat := 24

def MILLIS_PER_UPDATE : Nat := 1000 / UPDATES_PER_SECOND

/-- One cell: an RGBA quadruple `[u8; COLOR_BYTES]`, bytes as `Nat`. -/
structure Cell where
  c0 : Nat
  c1 : Nat
  c2 : Nat
  c3 : Nat
deriving DecidableEq

def WHITE : Cell := ⟨255, 255, 255, 255⟩

def BLACK : Cell := ⟨0, 0, 0, 255⟩

/-- The liveness test `v[0] > 0` used by the neighbor filter and the
survival check. -/
def Cell.alive (v : Cell) : Bool := decide (0 < v.c0)

/-- The four bytes of a cell in memory order. -/
def Cell.toBytes (v : Cell) : List Nat := [v.c0, v.c1, v.c2, v.c3]

/-- A board `[[[u8; 4]; GRID_WIDTH]; GRID_HEIGHT]`, indexed row then
column; the program only ever touches indices below the bounds. -/
abbrev Grid : Type := Nat → Nat → Cell

/-- The eight neighbor coordinates read by the update loop, in source
order, built from
`left = (c + W - 1) % W`, `right = (c + 1) % W`,
`above = (r + H - 1) % H`, `below = (r + 1) % H`. -/
def neighborCoords (W H r c : Nat) : List (Nat × Nat) :=
  let left := (c + W - 1) % W
  let right := (c + 1) % W
  let above := (r + H - 1) % H
  let below := (r + 1) % H
  [(above, left), (above, c), (above, right), (r, left), (r, right),
   (below, left), (below, c), (below, right)]

/-- `IntoIterator::into_iter([...]).filter(|v| v[0] > 0).count()`. -/
def countNeighbors (W H : Nat) (curr : Grid) (r c : Nat) : Nat :=
  ((neighborCoords W H r c).filter fun p => (curr p.1 p.2).alive).length

/-- The body of the parallel loop of `GameState::update`: the value
written into `next[r][c]`. -/
def step (W H : Nat) (curr : Grid) : Grid := fun r c =>
  let neighbors := countNeighbors W H curr r c
  if neighbors == 3 || (neighbors == 2 && (curr r c).alive) then WHITE
  else BLACK

structure GameState where
  curr : Grid
  next : Grid
  last_update : Nat
  needs_redraw : Bool

/-- `GameState::new`: the initial board is all `BLACK`, then every cell
whose coin flip comes up true is set to `WHITE`; `next` starts all
`BLACK`, the redraw flag set, the timestamp fresh. -/
def GameState.new (coin : Nat → Nat → Bool) (now : Nat) : GameState where
  curr := fun r c => if coin r c then WHITE else BLACK
  next := fun _ _ => BLACK
  last_update := now
  needs_redraw := true

/-- `EventHandler::update`: early-out unless `MILLIS_PER_UPDATE` has
elapsed; otherwise write the successor generation into `next`, swap the
two boards, stamp the time, set the redraw flag.  The boolean records
which branch ran (true exactly when a generation was computed). -/
def GameState.update (s : GameState) (now : Nat) : GameState × Bool :=
  if ¬ (MILLIS_PER_UPDATE ≤ now - s.last_update) then (s, false)
  else
    ({ curr := step GRID_WIDTH GRID_HEIGHT s.curr,
       next := s.curr,
       last_update := now,
       needs_redraw := true }, true)

/-- Bytes of the row slice of cells `(r, c) .. (r, c + n - 1)`, in
memory order. -/
def rowBytesFrom (g : Grid) (r : Nat) : Nat → Nat → List Nat
  | _, 0 => []
  | c, k + 1 => (g r c).toBytes ++ rowBytesFrom g r (c + 1) k

/-- Bytes of the rows `r .. r + n - 1` of a board of width `W`, in
memory order. -/
def gridBytesFrom (W : Nat) (g : Grid) : Nat → Nat → List Nat
  | _, 0 => []
  | r, k + 1 => rowBytesFrom g r 0 W ++ gridBytesFrom W g (r + 1) k

/-- The `transmute` view of the whole board as a flat row-major byte
buffer (`&[u8; GRID_BYTES]`). -/
def gridBytes (W H : Nat) (g : Grid) : List Nat := gridBytesFrom W g 0 H

/-- `EventHandler::draw`: when the redraw flag is set, produce the
packed byte buffer of `curr`, clear the flag and present it; otherwise
do nothing. -/
def GameState.draw (s : GameState) : GameState × Option (List Nat) :=
  if s.needs_redraw then
    ({ s with needs_redraw := false },
     some (gridBytes GRID_WIDTH GRID_HEIGHT s.curr))
  else (s, none)

/-- Spec-side neighbor count, following the words of the spec: count
`alive_neighbors` as the number of the 8 toroidally wrapped neighbor
cells that are alive, written as a sum of indicator values. -/
def specAliveNeighbors (W H : Nat) (g : Grid) (r c : Nat) : Nat :=
  (g ((r + H - 1) % H) ((c + W - 1) % W)).alive.toNat
  + (g ((r + H - 1) % H) c).alive.toNat
  + (g ((r + H - 1) % H) ((c + 1) % W)).alive.toNat
  + (g r ((c + W - 1) % W)).alive.toNat
  + (g r ((c + 1) % W)).alive.toNat
  + (g ((r + 1) % H) ((c + W - 1) % W)).alive.toNat
  + (g ((r + 1) % H) c).alive.toNat
  + (g ((r + 1) % H) ((c + 1) % W)).alive.toNat

/-- The all-dead board with a horizontal triple of live cells at
(5,4), (5,5), (5,6). -/
def blinker : Grid := fun r c =>
  if r = 5 ∧ (c = 4 ∨ c = 5 ∨ c = 6) then WHITE else BLACK

example : (step 10 10 blinker 4 5).alive = true := by decide

example : (step 10 10 blinker 5 4).alive = false := by decide

/-! ### Basic facts about cells and the neighbor count -/

theorem alive_WHITE : WHITE.alive = true := rfl

theorem alive_BLACK : BLACK.alive = false := rfl

theorem length_filter_cons {α : Type} (p : α → Bool) (x : α) (xs : List α) :
    (List.filter p (x :: xs)).length
      = (p x).toNat + (List.filter p xs).length := by
  cases h : p x <;> simp [List.filter_cons, h, Nat.add_comm]

/-- The filter-count of the update loop agrees with the spec-side sum of
indicator values over the eight wrapped neighbor coordinates. -/
theorem countNeighbors_eq (W H : Nat) (g : Grid) (r c : Nat) :
    countNeighbors W H g r c = specAliveNeighbors W H g r c := by
  simp only [countNeighbors, neighborCoords, specAliveNeighbors,
    length_filter_cons, List.filter_nil, List.length_nil]
  omega

/-- The written cell, with the boolean guard of the source restated as a
proposition. -/
theorem step_eq (W H : Nat) (g : Grid) (r c : Nat) :
    step W H g r c =
      if countNeighbors W H g r c = 3 ∨
          (countNeighbors W H g r c = 2 ∧ (g r c).alive = true) then WHITE
      else BLACK := by
  simp only [step]
  by_cases h : countNeighbors W H g r c = 3 ∨
      (countNeighbors W H g r c = 2 ∧ (g r c).alive = true)
  · rw [if_pos h, if_pos]
    simpa [Bool.or_eq_true, Bool.and_eq_true, beq_iff_eq] using h
  · rw [if_neg h, if_neg]
    simpa [Bool.or_eq_true, Bool.and_eq_true, beq_iff_eq] using h

theorem step_white_or_black (W H : Nat) (g : Grid) (r c : Nat) :
    step W H g r c = WHITE ∨ step W H g r c = BLACK := by
  rw [step_eq]
  split
  · exact Or.inl rfl
  · exact Or.inr rfl

/-- C1: the generation transition writes `next[r][c]` as alive exactly
when the alive-neighbor count is 3, or the count is 2 and the current
cell is alive; in every other case it writes the cell dead (`BLACK`). -/
theorem step_rule_characterization (W H : Nat) (g : Grid) (r c : Nat) :
    ((step W H g r c).alive = true ↔
      (specAliveNeighbors W H g r c = 3 ∨
        (specAliveNeighbors W H g r c = 2 ∧ (g r c).alive = true)))
    ∧ (step W H g r c = BLACK ↔
      ¬ (specAliveNeighbors W H g r c = 3 ∨
        (specAliveNeighbors W H g r c = 2 ∧ (g r c).alive = true))) := by
  rw [step_eq, countNeighbors_eq]
  by_cases h : specAliveNeighbors W H g r c = 3 ∨
      (specAliveNeighbors W H g r c = 2 ∧ (g r c).alive = true)
  · rw [if_pos h]
    constructor
    · simp [alive_WHITE, h]
    · simp [h, WHITE, BLACK]
  · rw [if_neg h]
    constructor
    · simp [alive_BLACK, h]
    · simp [h]

/-- C2: the eight neighbors inspected by the step are exactly the
toroidally wrapped coordinates built from
`left = (c + W - 1) % W`, `right = (c + 1) % W`,
`above = (r + H - 1) % H`, `below = (r + 1) % H`; in particular a live
cell at `(H-1, W-1)` is counted as a neighbor of `(0, 0)`, and a live
cell at `(0, 0)` is counted as a neighbor of `(0, W-1)`. -/
theorem neighbor_coords_toroidal (W H r c : Nat) :
    (neighborCoords W H r c =
      [((r + H - 1) % H, (c + W - 1) % W), ((r + H - 1) % H, c),
        ((r + H - 1) % H, (c + 1) % W), (r, (c + W - 1) % W),
        (r, (c + 1) % W), ((r + 1) % H, (c + W - 1) % W),
        ((r + 1) % H, c), ((r + 1) % H, (c + 1) % W)])
    ∧ (0 < W → 0 < H → ∀ g : Grid,
        (g (H - 1) (W - 1)).alive = true → 1 ≤ countNeighbors W H g 0 0)
    ∧ (0 < W → ∀ g : Grid,
        (g 0 0).alive = true → 1 ≤ countNeighbors W H g 0 (W - 1)) := by
  refine ⟨rfl, ?_, ?_⟩
  · intro hW hH g hg
    have h1 : (0 + H - 1) % H = H - 1 := by
      rw [Nat.zero_add]
      exact Nat.mod_eq_of_lt (by omega)
    have h2 : (0 + W - 1) % W = W - 1 := by
      rw [Nat.zero_add]
      exact Nat.mod_eq_of_lt (by omega)
    have hmem : ((H - 1 : Nat), (W - 1 : Nat)) ∈ neighborCoords W H 0 0 := by
      simp only [neighborCoords, h1, h2, List.mem_cons]
      tauto
    have hfil : ((H - 1 : Nat), (W - 1 : Nat)) ∈
        (neighborCoords W H 0 0).filter (fun p => (g p.1 p.2).alive) :=
      List.mem_filter.mpr ⟨hmem, by simpa using hg⟩
    exact List.length_pos.mpr (List.ne_nil_of_mem hfil)
  · intro hW g hg
    have h2 : (W - 1 + 1) % W = 0 := by
      rw [Nat.sub_add_cancel (by omega), Nat.mod_self]
    have hmem : ((0 : Nat), (0 : Nat)) ∈ neighborCoords W H 0 (W - 1) := by
      simp only [neighborCoords, h2, List.mem_cons]
      tauto
    have hfil : ((0 : Nat), (0 : Nat)) ∈
        (neighborCoords W H 0 (W - 1)).filter (fun p => (g p.1 p.2).alive) :=
      List.mem_filter.mpr ⟨hmem, by simpa using hg⟩
    exact List.length_pos.mpr (List.ne_nil_of_mem hfil)

/-- A board with a single live cell in its bottom-right corner. -/
def cornerGridBR : Grid := fun r c => if r = 1 ∧ c = 1 then WHITE else BLACK

/-- A board with a single live cell in its top-left corner. -/
def cornerGridTL : Grid := fun r c => if r = 0 ∧ c = 0 then WHITE else BLACK

theorem neighbor_coords_toroidal_witness :
    1 ≤ countNeighbors 2 2 cornerGridBR 0 0
    ∧ 1 ≤ countNeighbors 2 2 cornerGridTL 0 1 :=
  ⟨(neighbor_coords_toroidal 2 2 0 0).2.1 (by decide) (by decide)
      cornerGridBR (by decide),
    (neighbor_coords_toroidal 2 2 0 0).2.2 (by decide) cornerGridTL (by decide)⟩

/-! ### The rate-limited update and the redraw flag -/

/-- C3: when the step interval has elapsed, the update computes the next
generation from the read-only current board, makes it the new current
board, keeps the old current board as the scratch buffer, stamps the
update time, sets the redraw flag, and reports that a step ran. -/
theorem update_steps_and_swaps (s : GameState) (now : Nat)
    (h : MILLIS_PER_UPDATE ≤ now - s.last_update) :
    (s.update now).1.curr = step GRID_WIDTH GRID_HEIGHT s.curr
    ∧ (s.update now).1.next = s.curr
    ∧ (s.update now).1.last_update = now
    ∧ (s.update now).1.needs_redraw = true
    ∧ (s.update now).2 = true := by
  simp [GameState.update, h]

theorem update_steps_and_swaps_witness :
    MILLIS_PER_UPDATE ≤ 41 - (GameState.new (fun _ _ => false) 0).last_update
    ∧ (((GameState.new (fun _ _ => false) 0).update 41).1.curr
          = step GRID_WIDTH GRID_HEIGHT (GameState.new (fun _ _ => false) 0).curr
        ∧ ((GameState.new (fun _ _ => false) 0).update 41).1.next
          = (GameState.new (fun _ _ => false) 0).curr
        ∧ ((GameState.new (fun _ _ => false) 0).update 41).1.last_update = 41
        ∧ ((GameState.new (fun _ _ => false) 0).update 41).1.needs_redraw = true
        ∧ ((GameState.new (fun _ _ => false) 0).update 41).2 = true) :=
  ⟨by decide, update_steps_and_swaps (GameState.new (fun _ _ => false) 0) 41 (by decide)⟩

/-- C4: when the step interval has not elapsed, the update is a no-op
returning false: the whole state, both boards, the timestamp and the
redraw flag included, is returned untouched. -/
theorem update_rate_limited (s : GameState) (now : Nat)
    (h : now - s.last_update < MILLIS_PER_UPDATE) :
    s.update now = (s, false) := by
  have hc : ¬ (MILLIS_PER_UPDATE ≤ now - s.last_update) := Nat.not_le.mpr h
  simp [GameState.update, hc]

theorem update_rate_limited_witness :
    0 - (GameState.new (fun _ _ => false) 0).last_update < MILLIS_PER_UPDATE
    ∧ (GameState.new (fun _ _ => false) 0).update 0
        = (GameState.new (fun _ _ => false) 0, false) :=
  ⟨by decide, update_rate_limited (GameState.new (fun _ _ => false) 0) 0 (by decide)⟩

/-- C10: a successful step reports true and sets the redraw flag
unconditionally, even when the freshly computed generation agrees with
the previous current board on every cell. -/
theorem update_dirty_unconditional (s : GameState) (now : Nat)
    (h : MILLIS_PER_UPDATE ≤ now - s.last_update)
    (hfix : ∀ r c : Nat, step GRID_WIDTH GRID_HEIGHT s.curr r c = s.curr r c) :
    (s.update now).2 = true ∧ (s.update now).1.needs_redraw = true := by
  simp [GameState.update, h]

theorem update_dirty_unconditional_witness :
    MILLIS_PER_UPDATE ≤ 50 - (GameState.new (fun _ _ => false) 0).last_update
    ∧ (((GameState.new (fun _ _ => false) 0).update 50).2 = true
        ∧ ((GameState.new (fun _ _ => false) 0).update 50).1.needs_redraw = true) :=
  ⟨by decide, update_dirty_unconditional (GameState.new (fun _ _ => false) 0) 50
    (by decide) (fun r c => rfl)⟩

/-- C6: the draw yields a buffer exactly when the redraw flag is set,
always leaves the flag cleared, never touches the boards or the
timestamp, yields nothing on an immediately following draw, and is a
complete no-op when the flag is down. -/
theorem draw_iff_dirty (s : GameState) :
    ((s.draw).2.isSome = s.needs_redraw)
    ∧ ((s.draw).1.needs_redraw = false)
    ∧ ((s.draw).1.curr = s.curr)
    ∧ ((s.draw).1.next = s.next)
    ∧ ((s.draw).1.last_update = s.last_update)
    ∧ (((s.draw).1).draw = ((s.draw).1, none))
    ∧ (s.needs_redraw = false → s.draw = (s, none)) := by
  cases hs : s.needs_redraw <;> simp [GameState.draw, hs]

theorem draw_iff_dirty_witness :
    (GameState.mk (fun _ _ => BLACK) (fun _ _ => BLACK) 0 false).draw
      = (GameState.mk (fun _ _ => BLACK) (fun _ _ => BLACK) 0 false, none) :=
  (draw_iff_dirty (GameState.mk (fun _ _ => BLACK) (fun _ _ => BLACK) 0 false)).2.2.2.2.2.2
    rfl

/-! ### The packed byte buffer -/

theorem rowBytesFrom_length (g : Grid) (r : Nat) :
    ∀ n c, (rowBytesFrom g r c n).length = 4 * n := by
  intro n
  induction n with
  | zero => intro c; rfl
  | succ k ih =>
    intro c
    simp only [rowBytesFrom, Cell.toBytes, List.length_append, ih]
    simp
    omega

theorem rowBytesFrom_drop (g : Grid) (r : Nat) :
    ∀ i n c, i ≤ n →
      (rowBytesFrom g r c n).drop (4 * i) = rowBytesFrom g r (c + i) (n - i) := by
  intro i
  induction i with
  | zero => intro n c h; simp
  | succ j ih =>
    intro n c h
    obtain ⟨m, rfl⟩ : ∃ m, n = m + 1 := ⟨n - 1, by omega⟩
    have h4 : 4 * (j + 1) = 4 + 4 * j := by ring
    have hdrop4 : (rowBytesFrom g r c (m + 1)).drop 4 = rowBytesFrom g r (c + 1) m := rfl
    rw [h4, List.drop_add, hdrop4, ih m (c + 1) (by omega)]
    congr 1 <;> omega

theorem gridBytesFrom_length (W : Nat) (g : Grid) :
    ∀ n r, (gridBytesFrom W g r n).length = 4 * W * n := by
  intro n
  induction n with
  | zero => intro r; rfl
  | succ k ih =>
    intro r
    simp only [gridBytesFrom, List.length_append, rowBytesFrom_length, ih]
    ring

theorem gridBytesFrom_drop (W : Nat) (g : Grid) :
    ∀ i n r, i ≤ n →
      (gridBytesFrom W g r n).drop (4 * W * i) = gridBytesFrom W g (r + i) (n - i) := by
  intro i
  induction i with
  | zero => intro n r h; simp
  | succ j ih =>
    intro n r h
    obtain ⟨m, rfl⟩ : ∃ m, n = m + 1 := ⟨n - 1, by omega⟩
    have h4 : 4 * W * (j + 1) = 4 * W + 4 * W * j := by ring
    have hdropW : (gridBytesFrom W g r (m + 1)).drop (4 * W)
        = gridBytesFrom W g (r + 1) m := by
      show ((rowBytesFrom g r 0 W ++ gridBytesFrom W g (r + 1) m)).drop (4 * W) = _
      exact List.drop_left' (rowBytesFrom_length g r W 0)
    rw [h4, List.drop_add, hdropW, ih m (r + 1) (by omega)]
    congr 1 <;> omega

theorem drop_append_le {α : Type} :
    ∀ (l1 l2 : List α) (n : Nat), n ≤ l1.length →
      (l1 ++ l2).drop n = l1.drop n ++ l2 := by
  intro l1
  induction l1 with
  | nil => intro l2 n h; simp at h; simp [h]
  | cons x xs ih =>
    intro l2 n h
    cases n with
    | zero => simp
    | succ m => simpa using ih l2 m (by simpa using h)

/-- The four bytes the transmuted buffer holds at the offset of cell
`(r, c)` are exactly the bytes of that cell. -/
theorem gridBytes_cell (W H : Nat) (g : Grid) (r c : Nat)
    (hr : r < H) (hc : c < W) :
    ((gridBytes W H g).drop (4 * (r * W + c))).take 4 = (g r c).toBytes := by
  have hsplit : 4 * (r * W + c) = 4 * W * r + 4 * c := by ring
  rw [gridBytes, hsplit, List.drop_add, gridBytesFrom_drop W g r H 0 (by omega),
    Nat.zero_add]
  obtain ⟨m, hm⟩ : ∃ m, H - r = m + 1 := ⟨H - r - 1, by omega⟩
  rw [hm]
  show ((rowBytesFrom g r 0 W ++ gridBytesFrom W g (r + 1) m).drop (4 * c)).take 4 = _
  rw [drop_append_le _ _ _ (by rw [rowBytesFrom_length]; omega),
    rowBytesFrom_drop g r c W 0 hc.le, Nat.zero_add]
  obtain ⟨k, hk⟩ : ∃ k, W - c = k + 1 := ⟨W - c - 1, by omega⟩
  rw [hk]
  rfl

theorem gridBytes_length (W H : Nat) (g : Grid) :
    (gridBytes W H g).length = 4 * W * H := by
  rw [gridBytes, gridBytesFrom_length]

/-- C5: when the redraw flag is set and the board cells are the two
legal colors, the draw yields the packed row-major buffer whose four
bytes at offset `4 * (r * W + c)` are opaque white for a live cell and
opaque black for a dead one. -/
theorem draw_pixel_encoding (s : GameState)
    (hdirty : s.needs_redraw = true)
    (hinv : ∀ r c : Nat, s.curr r c = WHITE ∨ s.curr r c = BLACK)
    (r c : Nat) (hr : r < GRID_HEIGHT) (hc : c < GRID_WIDTH) :
    ∃ buf, (s.draw).2 = some buf
      ∧ buf.length = GRID_BYTES
      ∧ (buf.drop (4 * (r * GRID_WIDTH + c))).take 4 =
          (if (s.curr r c).alive = true then [255, 255, 255, 255]
            else [0, 0, 0, 255]) := by
  refine ⟨gridBytes GRID_WIDTH GRID_HEIGHT s.curr, ?_, ?_, ?_⟩
  · simp [GameState.draw, hdirty]
  · rw [gridBytes_length]
    decide
  · rw [gridBytes_cell _ _ _ _ _ hr hc]
    rcases hinv r c with hw | hb
    · rw [hw]
      simp [WHITE, Cell.toBytes, Cell.alive]
    · rw [hb]
      simp [BLACK, Cell.toBytes, Cell.alive]

theorem draw_pixel_encoding_witness :
    (GameState.new (fun _ _ => false) 0).needs_redraw = true
    ∧ ∃ buf, ((GameState.new (fun _ _ => false) 0).draw).2 = some buf
      ∧ buf.length = GRID_BYTES
      ∧ (buf.drop (4 * (0 * GRID_WIDTH + 0))).take 4 =
          (if ((GameState.new (fun _ _ => false) 0).curr 0 0).alive = true
            then [255, 255, 255, 255] else [0, 0, 0, 255]) :=
  ⟨rfl, draw_pixel_encoding (GameState.new (fun _ _ => false) 0) rfl
    (fun r c => Or.inr rfl) 0 0 (by decide) (by decide)⟩

/-! ### Determinism of the step -/

theorem rowBytesFrom_congr (g1 g2 : Grid) (r : Nat) :
    ∀ n c, (∀ x, c ≤ x → x < c + n → g1 r x = g2 r x) →
      rowBytesFrom g1 r c n = rowBytesFrom g2 r c n := by
  intro n
  induction n with
  | zero => intro c h; rfl
  | succ k ih =>
    intro c h
    simp only [rowBytesFrom]
    rw [h c (Nat.le_refl c) (by omega), ih (c + 1) (fun x h1 h2 => h x (by omega) (by omega))]

theorem gridBytesFrom_congr (W : Nat) (g1 g2 : Grid) :
    ∀ n r, (∀ x y, r ≤ x → x < r + n → y < W → g1 x y = g2 x y) →
      gridBytesFrom W g1 r n = gridBytesFrom W g2 r n := by
  intro n
  induction n with
  | zero => intro r h; rfl
  | succ k ih =>
    intro r h
    simp only [gridBytesFrom]
    rw [rowBytesFrom_congr g1 g2 r W 0 (fun x h1 h2 => h r x (Nat.le_refl r) (by omega) (by omega)),
      ih (r + 1) (fun x y h1 h2 h3 => h x y (by omega) (by omega) h3)]

theorem toBytes_inj (v w : Cell) (h : v.toBytes = w.toBytes) : v = w := by
  cases v
  cases w
  simpa [Cell.toBytes] using h

/-- Byte-identical boards agree on every in-range cell. -/
theorem gridBytes_inj (W H : Nat) (g1 g2 : Grid)
    (h : gridBytes W H g1 = gridBytes W H g2) :
    ∀ r c, r < H → c < W → g1 r c = g2 r c := by
  intro r c hr hc
  have h1 := gridBytes_cell W H g1 r c hr hc
  have h2 := gridBytes_cell W H g2 r c hr hc
  rw [h] at h1
  exact toBytes_inj _ _ (h1.symm.trans h2)

theorem mem_neighborCoords_lt (W H r c : Nat) (hr : r < H) (hc : c < W) :
    ∀ p ∈ neighborCoords W H r c, p.1 < H ∧ p.2 < W := by
  intro p hp
  have hH : 0 < H := by omega
  have hW : 0 < W := by omega
  simp only [neighborCoords, List.mem_cons, List.not_mem_nil, or_false] at hp
  rcases hp with rfl | rfl | rfl | rfl | rfl | rfl | rfl | rfl <;>
    exact ⟨by first | exact hr | exact Nat.mod_lt _ hH,
      by first | exact hc | exact Nat.mod_lt _ hW⟩

/-- The step reads only in-range cells of the current board. -/
theorem step_congr (W H : Nat) (g1 g2 : Grid)
    (hcells : ∀ r c, r < H → c < W → g1 r c = g2 r c)
    (r c : Nat) (hr : r < H) (hc : c < W) :
    step W H g1 r c = step W H g2 r c := by
  have hcount : countNeighbors W H g1 r c = countNeighbors W H g2 r c := by
    unfold countNeighbors
    congr 1
    apply List.filter_congr
    intro p hp
    have hb := mem_neighborCoords_lt W H r c hr hc p hp
    rw [hcells p.1 p.2 hb.1 hb.2]
  simp only [step, hcount, hcells r c hr hc]

/-- C7: the generation transition is a pure function of the current
board: byte-identical current boards give byte-identical next boards. -/
theorem step_deterministic (W H : Nat) (g1 g2 : Grid)
    (h : gridBytes W H g1 = gridBytes W H g2) :
    gridBytes W H (step W H g1) = gridBytes W H (step W H g2) := by
  have hcells := gridBytes_inj W H g1 g2 h
  unfold gridBytes
  apply gridBytesFrom_congr
  intro x y h1 h2 h3
  exact step_congr W H g1 g2 hcells x y (by omega) h3

/-- The all-dead board. -/
def deadGrid : Grid := fun _ _ => BLACK

/-- A board written differently that holds the same cells as
`deadGrid`. -/
def deadGrid2 : Grid := fun r c => if r + c + 1 = 0 then WHITE else BLACK

theorem step_deterministic_witness :
    gridBytes 2 2 deadGrid = gridBytes 2 2 deadGrid2
    ∧ gridBytes 2 2 (step 2 2 deadGrid) = gridBytes 2 2 (step 2 2 deadGrid2) :=
  ⟨by decide, step_deterministic 2 2 deadGrid deadGrid2 (by decide)⟩

/-! ### The two-color invariant -/

/-- Every cell of both boards is one of the two legal colors. -/
def GoodState (s : GameState) : Prop :=
  ∀ r c : Nat, (s.curr r c = WHITE ∨ s.curr r c = BLACK)
    ∧ (s.next r c = WHITE ∨ s.next r c = BLACK)

/-- The engine states reachable from construction through updates and
draws. -/
inductive Reachable : GameState → Prop
  | init : ∀ (coin : Nat → Nat → Bool) (now : Nat),
      Reachable (GameState.new coin now)
  | tick : ∀ (s : GameState) (now : Nat), Reachable s →
      Reachable ((s.update now).1)
  | render : ∀ (s : GameState), Reachable s → Reachable ((s.draw).1)

/-- C8: in every reachable engine state each cell of both boards is
exactly the opaque-white or the opaque-black quadruple; construction
establishes this and every update and draw preserves it. -/
theorem reachable_cells_white_or_black (s : GameState) (h : Reachable s) :
    GoodState s := by
  induction h with
  | init coin now =>
    intro r c
    constructor
    · by_cases hb : coin r c <;> simp [GameState.new, hb]
    · exact Or.inr rfl
  | tick s now hs ih =>
    intro r c
    by_cases hcond : MILLIS_PER_UPDATE ≤ now - s.last_update
    · refine ⟨?_, ?_⟩
      · simpa [GameState.update, hcond] using
          step_white_or_black GRID_WIDTH GRID_HEIGHT s.curr r c
      · simpa [GameState.update, hcond] using (ih r c).1
    · simpa [GameState.update, hcond] using ih r c
  | render s hs ih =>
    intro r c
    by_cases hd : s.needs_redraw <;> simpa [GameState.draw, hd] using ih r c

theorem reachable_cells_white_or_black_witness :
    GoodState (GameState.new (fun _ _ => true) 7) :=
  reachable_cells_white_or_black (GameState.new (fun _ _ => true) 7)
    (Reachable.init (fun _ _ => true) 7)

/-! ### The blinker scenario -/

theorem wrap_dec (H r : Nat) (hr : r < H) :
    (r + H - 1) % H = if r = 0 then H - 1 else r - 1 := by
  by_cases h0 : r = 0
  · subst h0
    rw [if_pos rfl, Nat.zero_add]
    exact Nat.mod_eq_of_lt (by omega)
  · rw [if_neg h0]
    have he : r + H - 1 = H + (r - 1) := by omega
    rw [he, Nat.add_mod_left]
    exact Nat.mod_eq_of_lt (by omega)

theorem wrap_inc (H r : Nat) (hr : r < H) :
    (r + 1) % H = if r + 1 = H then 0 else r + 1 := by
  by_cases h : r + 1 = H
  · rw [if_pos h, h, Nat.mod_self]
  · rw [if_neg h]
    exact Nat.mod_eq_of_lt (by omega)

theorem wrap_dec_eq_iff (H r k : Nat) (hH : 8 ≤ H) (hr : r < H) (hk : k < 7) :
    ((r + H - 1) % H = k ↔ r = k + 1) := by
  rw [wrap_dec H r hr]
  by_cases h0 : r = 0 <;> simp [h0] <;> omega

theorem wrap_inc_eq_iff (H r k : Nat) (hH : 8 ≤ H) (hr : r < H)
    (hk0 : 0 < k) (hk7 : k < 7) :
    ((r + 1) % H = k ↔ r + 1 = k) := by
  rw [wrap_inc H r hr]
  by_cases h : r + 1 = H <;> simp [h] <;> omega

theorem blinker_alive_toNat (x y : Nat) :
    ((blinker x y).alive).toNat =
      if x = 5 ∧ (y = 4 ∨ y = 5 ∨ y = 6) then 1 else 0 := by
  by_cases h : x = 5 ∧ (y = 4 ∨ y = 5 ∨ y = 6) <;>
    simp [blinker, h, Cell.alive, WHITE, BLACK]

theorem blinker_alive_prop (x y : Nat) :
    ((blinker x y).alive = true) ↔ (x = 5 ∧ (y = 4 ∨ y = 5 ∨ y = 6)) := by
  by_cases h : x = 5 ∧ (y = 4 ∨ y = 5 ∨ y = 6) <;>
    simp [blinker, h, Cell.alive, WHITE, BLACK]

set_option maxHeartbeats 2000000 in
/-- On a large enough board, the horizontal blinker steps to the
vertical triple: the written cell is white exactly at (4,5), (5,5),
(6,5) and black everywhere else. -/
theorem step_blinker (W H r c : Nat) (hW : 8 ≤ W) (hH : 8 ≤ H)
    (hr : r < H) (hc : c < W) :
    step W H blinker r c =
      if (r = 4 ∧ c = 5) ∨ (r = 5 ∧ c = 5) ∨ (r = 6 ∧ c = 5) then WHITE
      else BLACK := by
  have hl4 : ((c + W - 1) % W = 4) ↔ c = 5 :=
    (wrap_dec_eq_iff W c 4 hW hc (by omega)).trans (by omega)
  have hl5 : ((c + W - 1) % W = 5) ↔ c = 6 :=
    (wrap_dec_eq_iff W c 5 hW hc (by omega)).trans (by omega)
  have hl6 : ((c + W - 1) % W = 6) ↔ c = 7 :=
    (wrap_dec_eq_iff W c 6 hW hc (by omega)).trans (by omega)
  have ha5 : ((r + H - 1) % H = 5) ↔ r = 6 :=
    (wrap_dec_eq_iff H r 5 hH hr (by omega)).trans (by omega)
  have hb5 : ((r + 1) % H = 5) ↔ r = 4 :=
    (wrap_inc_eq_iff H r 5 hH hr (by omega) (by omega)).trans (by omega)
  have hq4 : ((c + 1) % W = 4) ↔ c = 3 :=
    (wrap_inc_eq_iff W c 4 hW hc (by omega) (by omega)).trans (by omega)
  have hq5 : ((c + 1) % W = 5) ↔ c = 4 :=
    (wrap_inc_eq_iff W c 5 hW hc (by omega) (by omega)).trans (by omega)
  have hq6 : ((c + 1) % W = 6) ↔ c = 5 :=
    (wrap_inc_eq_iff W c 6 hW hc (by omega) (by omega)).trans (by omega)
  rw [step_eq, countNeighbors_eq]
  simp only [specAliveNeighbors, blinker_alive_toNat, blinker_alive_prop,
    ha5, hb5, hl4, hl5, hl6, hq4, hq5, hq6]
  split_ifs <;> first | rfl | omega

/-- C9: starting from the all-dead board carrying the horizontal triple
(5,4), (5,5), (5,6), one generation transition leaves exactly the
vertical triple (4,5), (5,5), (6,5) alive: the two outer horizontal
cells die, the center survives, and every other cell stays dead. -/
theorem blinker_steps_to_vertical (W H : Nat) (hW : 8 ≤ W) (hH : 8 ≤ H)
    (r c : Nat) (hr : r < H) (hc : c < W) :
    ((step W H blinker r c).alive = true ↔
      ((r = 4 ∧ c = 5) ∨ (r = 5 ∧ c = 5) ∨ (r = 6 ∧ c = 5))) := by
  rw [step_blinker W H r c hW hH hr hc]
  by_cases h : (r = 4 ∧ c = 5) ∨ (r = 5 ∧ c = 5) ∨ (r = 6 ∧ c = 5) <;>
    simp [h, Cell.alive, WHITE, BLACK]

theorem blinker_steps_to_vertical_witness :
    8 ≤ GRID_WIDTH ∧ 8 ≤ GRID_HEIGHT
    ∧ ((step GRID_WIDTH GRID_HEIGHT blinker 4 5).alive = true ↔
        ((4 = 4 ∧ 5 = 5) ∨ (4 = 5 ∧ 5 = 5) ∨ (4 = 6 ∧ 5 = 5))) :=
  ⟨by decide, by decide,
    blinker_steps_to_vertical GRID_WIDTH GRID_HEIGHT (by decide) (by decide)
      4 5 (by decide) (by decide)⟩

end Life
